import Mathlib

/-!
Verification of the simple infix calculator (`src/main.rs`).

The program is a three-stage pipeline:
  `tokenize`          : text line -> token sequence,
  `infix_to_postfix`  : token sequence -> reverse-Polish token sequence
                        (Shunting Yard), embedded here as `toRPN`,
  `evaluate_postfix`  : reverse-Polish sequence -> number or error,
                        embedded here as `evalRPN`.

Numeric idealization: the Rust code computes with `f64`.  We model numeric
values as exact rationals `ℚ`: decimal literals are parsed exactly, and
`+ - * /` are exact rational arithmetic.  `f64::powf` is modelled by
`powf` below, exact for integer exponents (the only exponents any claim
touches); non-integer exponents are irrational in general and fall outside
the rational model.  The `eprintln!` diagnostics of the Rust code carry no
data into the results and are dropped.
-/

/-- `Token` from `src/main.rs` (enum Token): a number, an operator symbol,
or a parenthesis. -/
inductive Token where
  | Number (value : ℚ)
  | Operator (symbol : Char)
  | LeftParen
  | RightParen
deriving DecidableEq, Repr

/-- The typed rendering of the `Err(String)` results of `evaluate_postfix`,
one constructor per `return Err(...)` site:
`InsufficientOperands op` = "Not enough operands for operator {op}",
`DivisionByZero` = "Division by zero",
`UnknownOperator op` = "Unknown operator {op}",
`UnexpectedToken t` = "Unexpected token in postfix{:?}",
`InvalidExpression` = "Invalid expression". -/
inductive EvalErr where
  | InsufficientOperands (op : Char)
  | DivisionByZero
  | UnknownOperator (op : Char)
  | UnexpectedToken (t : Token)
  | InvalidExpression
deriving DecidableEq, Repr

/-! ## Tokenizer -/

/-- The character class `'0'..='9' | '.'` that starts and continues a
number run in `tokenize`. -/
def numChar (c : Char) : Bool := c.isDigit || c == '.'

/-- The operator alphabet `'+' | '-' | '*' | '/' | '^'` of `tokenize`. -/
def opChar (c : Char) : Bool :=
  c == '+' || c == '-' || c == '*' || c == '/' || c == '^'

/-- Value of a digit string read left to right, as in positional decimal
notation. -/
def digitsVal (l : List Char) : ℕ :=
  l.foldl (fun acc c => 10 * acc + (c.toNat - 48)) 0

/-- Model of `number.parse::<f64>()` on a run drawn from the digit/dot
alphabet.  Rust's float grammar accepts such a run exactly when it holds
at least one digit and at most one `'.'` (so `"2"`, `"2."`, `".5"` parse;
`"."` and `"1.2.3"` do not).  The value is the exact decimal value
`intpart + fracpart / 10 ^ (number of fraction digits)`, read as a
rational. -/
def parseF64 (s : List Char) : Option ℚ :=
  if (s.count '.' ≤ 1 ∧ 1 ≤ (s.filter Char.isDigit).length) then
    let ip := s.takeWhile (fun c => c != '.')
    let fp := (s.dropWhile (fun c => c != '.')).tail
    some ((digitsVal ip : ℚ) + (digitsVal fp : ℚ) / 10 ^ fp.length)
  else
    none

/-- The tokens emitted when a number run ends: one `Number` token when the
run parses, none when it is empty or fails to parse (the Rust code then
only prints "Invalid number"). -/
def emitNum (run : List Char) : List Token :=
  match run with
  | [] => []
  | _ =>
    match parseF64 run with
    | some n => [Token.Number n]
    | none => []

/-- The scanning loop of `tokenize`.  The Rust code consumes a maximal
digit/dot run with an inner `while` loop; here `run` accumulates the
current number run (the "currently accumulating a number run or not"
state), and every other character either emits its single token or is
skipped (whitespace, invalid characters). -/
def tokenizeAux : List Char → List Char → List Token
  | [], run => emitNum run
  | c :: rest, run =>
    if numChar c then
      tokenizeAux rest (run ++ [c])
    else
      emitNum run ++
        (if opChar c then [Token.Operator c]
         else if c == '(' then [Token.LeftParen]
         else if c == ')' then [Token.RightParen]
         else []) ++
        tokenizeAux rest []

/-- `tokenize` from `src/main.rs`: scan the input characters left to
right. -/
def tokenize (s : String) : List Token := tokenizeAux s.data []

/-! ## Converter (Shunting Yard) -/

/-- `get_precedence` from `src/main.rs`. -/
def getPrecedence (op : Char) : ℕ :=
  if op == '+' || op == '-' then 1
  else if op == '*' || op == '/' then 2
  else if op == '^' then 3
  else 0

/-- `is_left_associative` from `src/main.rs`. -/
def isLeftAssociative (op : Char) : Bool :=
  if op == '+' || op == '-' || op == '*' || op == '/' then true
  else if op == '^' then false
  else true

/-- The condition of the inner `while let` loop run when `infix_to_postfix`
meets `Operator op`: the stack top is an `Operator top` with
(`op` left-associative and `prec op ≤ prec top`) or
(`op` right-associative and `prec op < prec top`);
false on every other token. -/
def shouldPop (op : Char) (t : Token) : Bool :=
  match t with
  | Token.Operator top =>
    (isLeftAssociative op && decide (getPrecedence op ≤ getPrecedence top))
      || (!isLeftAssociative op && decide (getPrecedence op < getPrecedence top))
  | _ => false

/-- The inner `while let` loop for an `Operator op` token: pop stack tops
into the output while `shouldPop` holds.  Returns (popped tokens in pop
order, remaining stack); the stack's top is the head of the list. -/
def popOps (op : Char) : List Token → List Token × List Token
  | Token.Operator top :: rest =>
    if (isLeftAssociative op && decide (getPrecedence op ≤ getPrecedence top))
        || (!isLeftAssociative op && decide (getPrecedence op < getPrecedence top)) then
      let pr := popOps op rest
      (Token.Operator top :: pr.1, pr.2)
    else
      ([], Token.Operator top :: rest)
  | st => ([], st)

/-- The loop run for a `RightParen` token: pop stack tokens into the output
until a `LeftParen` is on top or the stack is empty.  Returns (popped
tokens in pop order, remaining stack). -/
def popUntilParen : List Token → List Token × List Token
  | [] => ([], [])
  | Token.LeftParen :: rest => ([], Token.LeftParen :: rest)
  | t :: rest =>
    let pr := popUntilParen rest
    (t :: pr.1, pr.2)

/-- After `popUntilParen`: discard the `LeftParen` on top of the stack; when
there is none the Rust code only prints "Mismatched parenthesis" and
leaves the stack as it is. -/
def dropParen : List Token → List Token
  | Token.LeftParen :: rest => rest
  | st => st

/-- The final loop of `infix_to_postfix`: pop every remaining stack entry
into the output, dropping (after a "Mismatched parenthesis" diagnostic)
any `LeftParen`. -/
def drainStack : List Token → List Token
  | [] => []
  | Token.LeftParen :: rest => drainStack rest
  | t :: rest => t :: drainStack rest

/-- The `for token in tokens` loop of `infix_to_postfix`, carrying the
`output_queue` (in emission order) and the `operator_stack` (top first). -/
def toRPNAux : List Token → List Token → List Token → List Token
  | [], out, st => out ++ drainStack st
  | Token.Number n :: ts, out, st => toRPNAux ts (out ++ [Token.Number n]) st
  | Token.Operator op :: ts, out, st =>
    toRPNAux ts (out ++ (popOps op st).1) (Token.Operator op :: (popOps op st).2)
  | Token.LeftParen :: ts, out, st => toRPNAux ts out (Token.LeftParen :: st)
  | Token.RightParen :: ts, out, st =>
    toRPNAux ts (out ++ (popUntilParen st).1) (dropParen (popUntilParen st).2)

/-- `infix_to_postfix` from `src/main.rs`: Shunting Yard conversion to
reverse-Polish order, starting from an empty output and an empty operator
stack. -/
def toRPN (tokens : List Token) : List Token := toRPNAux tokens [] []

/-! ## Evaluator -/

/-- Model of `f64::powf` on rationals: exact for integer exponents
(`a.powf(b) = a ^ b` when `b` is an integer); a non-integer exponent has an
irrational power in general and lies outside the rational model, so it is
mapped to 0.  No claim evaluates `powf` at a non-integer exponent. -/
def powf (a b : ℚ) : ℚ := if b.den = 1 then a ^ b.num else 0

/-- The operator application of `evaluate_postfix` (`match op` on lines
146-158), with `a` the left and `b` the right operand. -/
def applyOp (op : Char) (a b : ℚ) : Except EvalErr ℚ :=
  if op == '+' then Except.ok (a + b)
  else if op == '-' then Except.ok (a - b)
  else if op == '*' then Except.ok (a * b)
  else if op == '/' then
    if b = 0 then Except.error EvalErr.DivisionByZero else Except.ok (a / b)
  else if op == '^' then Except.ok (powf a b)
  else Except.error (EvalErr.UnknownOperator op)

/-- The `for token in postfix` loop of `evaluate_postfix`, carrying the
value stack (top first).  A `Number` pushes its value; an `Operator` needs
two stacked values, pops right operand `b` then left operand `a`, applies,
and pushes the result; a parenthesis is an unexpected token; at the end the
stack must hold exactly one value. -/
def evalAux : List Token → List ℚ → Except EvalErr ℚ
  | [], [v] => Except.ok v
  | [], _ => Except.error EvalErr.InvalidExpression
  | Token.Number n :: ts, st => evalAux ts (n :: st)
  | Token.Operator op :: ts, b :: a :: rest =>
    (match applyOp op a b with
     | Except.ok r => evalAux ts (r :: rest)
     | Except.error e => Except.error e)
  | Token.Operator op :: _, _ => Except.error (EvalErr.InsufficientOperands op)
  | t :: _, _ => Except.error (EvalErr.UnexpectedToken t)

/-- `evaluate_postfix` from `src/main.rs`, starting from an empty value
stack. -/
def evalRPN (tokens : List Token) : Except EvalErr ℚ := evalAux tokens []

/-! ## Helper lemmas -/

/-- `popOps` pops exactly the longest prefix of stack entries satisfying the
`while let` condition `shouldPop`, and leaves the rest. -/
theorem popOps_eq_split (op : Char) (st : List Token) :
    popOps op st = (st.takeWhile (shouldPop op), st.dropWhile (shouldPop op)) := by
  induction st with
  | nil => simp [popOps]
  | cons t rest ih =>
    cases t with
    | Operator top =>
      by_cases hc : ((isLeftAssociative op && decide (getPrecedence op ≤ getPrecedence top))
          || (!isLeftAssociative op && decide (getPrecedence op < getPrecedence top))) = true
      · simp [popOps, hc, ih, List.takeWhile_cons, List.dropWhile_cons, shouldPop]
      · simp [popOps, hc, List.takeWhile_cons, List.dropWhile_cons, shouldPop]
    | Number n => simp [popOps, List.takeWhile_cons, List.dropWhile_cons, shouldPop]
    | LeftParen => simp [popOps, List.takeWhile_cons, List.dropWhile_cons, shouldPop]
    | RightParen => simp [popOps, List.takeWhile_cons, List.dropWhile_cons, shouldPop]

/-- A token of the output alphabet: `Number` or `Operator`. -/
def isNumOrOp : Token → Bool
  | Token.Number _ => true
  | Token.Operator _ => true
  | _ => false

/-- A token of the operator-stack alphabet: `Operator` or `LeftParen`. -/
def isOpOrLP : Token → Bool
  | Token.Operator _ => true
  | Token.LeftParen => true
  | _ => false

theorem shouldPop_isOp {op : Char} {t : Token} (h : shouldPop op t = true) :
    isNumOrOp t = true := by
  cases t <;> simp_all [shouldPop, isNumOrOp]

theorem popOps_fst_mem (op : Char) (st : List Token) :
    ∀ t ∈ (popOps op st).1, isNumOrOp t = true := by
  intro t ht
  rw [popOps_eq_split] at ht
  exact shouldPop_isOp (List.mem_takeWhile_imp ht)

theorem popOps_snd_mem (op : Char) (st : List Token) :
    ∀ t ∈ (popOps op st).2, t ∈ st := by
  intro t ht
  rw [popOps_eq_split] at ht
  exact List.dropWhile_subset _ ht

theorem popUntilParen_spec (st : List Token) (h : ∀ t ∈ st, isOpOrLP t = true) :
    (∀ t ∈ (popUntilParen st).1, isNumOrOp t = true)
      ∧ (∀ t ∈ (popUntilParen st).2, isOpOrLP t = true) := by
  induction st with
  | nil => simp [popUntilParen]
  | cons t rest ih =>
    have hrest : ∀ t ∈ rest, isOpOrLP t = true := fun u hu => h u (List.mem_cons_of_mem _ hu)
    cases t with
    | Number n => exact absurd (h _ (List.mem_cons_self _ _)) (by simp [isOpOrLP])
    | RightParen => exact absurd (h _ (List.mem_cons_self _ _)) (by simp [isOpOrLP])
    | LeftParen =>
      refine ⟨by simp [popUntilParen], ?_⟩
      simpa [popUntilParen] using h
    | Operator s =>
      refine ⟨?_, (ih hrest).2⟩
      intro u hu
      simp only [popUntilParen, List.mem_cons] at hu
      rcases hu with rfl | hu
      · simp [isNumOrOp]
      · exact (ih hrest).1 u hu

theorem dropParen_subset (st : List Token) : ∀ t ∈ dropParen st, t ∈ st := by
  intro t ht
  match st with
  | [] => exact ht
  | Token.LeftParen :: rest => exact List.mem_cons_of_mem _ ht
  | Token.Number n :: rest => exact ht
  | Token.Operator s :: rest => exact ht
  | Token.RightParen :: rest => exact ht

theorem drainStack_mem (st : List Token) (h : ∀ t ∈ st, isOpOrLP t = true) :
    ∀ t ∈ drainStack st, isNumOrOp t = true := by
  induction st with
  | nil => simp [drainStack]
  | cons t rest ih =>
    have hrest : ∀ t ∈ rest, isOpOrLP t = true := fun u hu => h u (List.mem_cons_of_mem _ hu)
    cases t with
    | Number n => exact absurd (h _ (List.mem_cons_self _ _)) (by simp [isOpOrLP])
    | RightParen => exact absurd (h _ (List.mem_cons_self _ _)) (by simp [isOpOrLP])
    | LeftParen => simpa [drainStack] using ih hrest
    | Operator s =>
      intro u hu
      simp only [drainStack, List.mem_cons] at hu
      rcases hu with rfl | hu
      · simp [isNumOrOp]
      · exact ih hrest u hu

/-- The main loop invariant of `infix_to_postfix`: starting from an output
of `Number`/`Operator` tokens and a stack of `Operator`/`LeftParen` tokens,
the result holds only `Number`/`Operator` tokens. -/
theorem toRPNAux_mem (ts : List Token) :
    ∀ out st, (∀ t ∈ out, isNumOrOp t = true) → (∀ t ∈ st, isOpOrLP t = true) →
      ∀ t ∈ toRPNAux ts out st, isNumOrOp t = true := by
  induction ts with
  | nil =>
    intro out st ho hs t ht
    simp only [toRPNAux, List.mem_append] at ht
    rcases ht with ht | ht
    · exact ho t ht
    · exact drainStack_mem st hs t ht
  | cons tk ts ih =>
    intro out st ho hs
    cases tk with
    | Number n =>
      refine ih (out ++ [Token.Number n]) st ?_ hs
      intro u hu
      rcases List.mem_append.mp hu with hu | hu
      · exact ho u hu
      · simp only [List.mem_singleton] at hu
        subst hu
        simp [isNumOrOp]
    | Operator op =>
      refine ih _ _ ?_ ?_
      · intro u hu
        rcases List.mem_append.mp hu with hu | hu
        · exact ho u hu
        · exact popOps_fst_mem op st u hu
      · intro u hu
        rcases List.mem_cons.mp hu with rfl | hu
        · simp [isOpOrLP]
        · exact hs u (popOps_snd_mem op st u hu)
    | LeftParen =>
      refine ih out (Token.LeftParen :: st) ho ?_
      intro u hu
      rcases List.mem_cons.mp hu with rfl | hu
      · simp [isOpOrLP]
      · exact hs u hu
    | RightParen =>
      refine ih _ _ ?_ ?_
      · intro u hu
        rcases List.mem_append.mp hu with hu | hu
        · exact ho u hu
        · exact (popUntilParen_spec st hs).1 u hu
      · intro u hu
        exact (popUntilParen_spec st hs).2 u (dropParen_subset _ u hu)

/-- `applyOp` only ever fails with `DivisionByZero` or `UnknownOperator`,
never with `UnexpectedToken`. -/
theorem applyOp_ne_unexpected (op : Char) (a b : ℚ) (e : Token) :
    applyOp op a b ≠ Except.error (EvalErr.UnexpectedToken e) := by
  unfold applyOp
  split_ifs <;> simp

/-- On a token list free of parentheses, `evalAux` never returns the
`UnexpectedToken` error. -/
theorem evalAux_ne_unexpected (ts : List Token) :
    ∀ st, (∀ t ∈ ts, isNumOrOp t = true) →
      ∀ e, evalAux ts st ≠ Except.error (EvalErr.UnexpectedToken e) := by
  induction ts with
  | nil =>
    intro st _ e
    match st with
    | [] => simp [evalAux]
    | [v] => simp [evalAux]
    | v :: w :: rest => simp [evalAux]
  | cons tk ts ih =>
    intro st h e
    have hts : ∀ t ∈ ts, isNumOrOp t = true := fun u hu => h u (List.mem_cons_of_mem _ hu)
    cases tk with
    | Number n => exact ih (n :: st) hts e
    | Operator op =>
      match st with
      | [] => simp [evalAux]
      | [v] => simp [evalAux]
      | b :: a :: rest =>
        cases happ : applyOp op a b with
        | ok r =>
          have : evalAux (Token.Operator op :: ts) (b :: a :: rest) = evalAux ts (r :: rest) := by
            simp [evalAux, happ]
          rw [this]
          exact ih (r :: rest) hts e
        | error e' =>
          have : evalAux (Token.Operator op :: ts) (b :: a :: rest) = Except.error e' := by
            simp [evalAux, happ]
          rw [this]
          intro hcontra
          rw [Except.error.injEq] at hcontra
          subst hcontra
          exact applyOp_ne_unexpected op a b e happ
    | LeftParen => exact absurd (h _ (List.mem_cons_self _ _)) (by simp [isNumOrOp])
    | RightParen => exact absurd (h _ (List.mem_cons_self _ _)) (by simp [isNumOrOp])

/-! ## Claims -/

/-- C1: running the full pipeline (tokenize, then the Shunting Yard
conversion, then the reverse-Polish evaluation) on the input line
"2 + 2 * 3" returns Ok 8, and on "(2 + 2) * 3" returns Ok 12. -/
theorem pipeline_example_values :
    evalRPN (toRPN (tokenize ("2 + 2 * 3"))) = Except.ok 8
      ∧ evalRPN (toRPN (tokenize ("(2 + 2) * 3"))) = Except.ok 12 := by
  constructor <;>
  · simp [tokenize, tokenizeAux, emitNum, parseF64, digitsVal, opChar, numChar, toRPN,
      toRPNAux, popOps, popUntilParen, dropParen, drainStack, getPrecedence,
      isLeftAssociative, evalRPN, evalAux, applyOp, powf]
    norm_num

/-- C2: the pipeline treats the caret as right-associative: on "2^3^2" it
returns Ok 512, i.e. 2 ^ (3 ^ 2), and not Ok 64, i.e. (2 ^ 3) ^ 2. -/
theorem caret_right_assoc_pipeline :
    evalRPN (toRPN (tokenize ("2^3^2"))) = Except.ok 512
      ∧ evalRPN (toRPN (tokenize ("2^3^2"))) ≠ Except.ok 64 := by
  have h : evalRPN (toRPN (tokenize ("2^3^2"))) = Except.ok 512 := by
    simp [tokenize, tokenizeAux, emitNum, parseF64, digitsVal, opChar, numChar, toRPN,
      toRPNAux, popOps, popUntilParen, dropParen, drainStack, getPrecedence,
      isLeftAssociative, evalRPN, evalAux, applyOp, powf]
    norm_num
  refine ⟨h, ?_⟩
  rw [h]
  intro hc
  rw [Except.ok.injEq] at hc
  norm_num at hc

/-- C3: on an Operator token op, the converter pops from the operator stack
into the output exactly the stack entries for which the while-loop
condition holds — an Operator top with (op left-associative and
prec op ≤ prec top) or (op right-associative and prec op < prec top) —
then pushes op; the condition is false on a LeftParen and on every
non-Operator token, so popping stops there. -/
theorem shunt_operator_step (op : Char) (ts out st : List Token) :
    toRPNAux (Token.Operator op :: ts) out st =
      toRPNAux ts (out ++ st.takeWhile (shouldPop op))
        (Token.Operator op :: st.dropWhile (shouldPop op))
    ∧ (∀ top, shouldPop op (Token.Operator top) =
        ((isLeftAssociative op && decide (getPrecedence op ≤ getPrecedence top))
          || (!isLeftAssociative op && decide (getPrecedence op < getPrecedence top))))
    ∧ shouldPop op Token.LeftParen = false
    ∧ (∀ n, shouldPop op (Token.Number n) = false)
    ∧ shouldPop op Token.RightParen = false := by
  refine ⟨?_, fun top => rfl, rfl, fun n => rfl, rfl⟩
  rw [toRPNAux, popOps_eq_split]

/-- C4: the operator metadata tables: precedence 1 for + and -, 2 for * and
/, 3 for the caret; the caret is right-associative, the other four are
left-associative. -/
theorem operator_metadata_tables :
    getPrecedence '+' = 1 ∧ getPrecedence '-' = 1
      ∧ getPrecedence '*' = 2 ∧ getPrecedence '/' = 2
      ∧ getPrecedence '^' = 3
      ∧ isLeftAssociative '^' = false
      ∧ isLeftAssociative '+' = true ∧ isLeftAssociative '-' = true
      ∧ isLeftAssociative '*' = true ∧ isLeftAssociative '/' = true := by
  decide

/-- C6: the converter's output holds only Number and Operator tokens, never
a parenthesis; each converter step keeps the operator stack free of Number
and RightParen tokens (operator push, right-parenthesis handling,
left-parenthesis push all preserve the Operator/LeftParen alphabet); and
consequently the evaluator's UnexpectedToken branch is unreachable on any
converter output. -/
theorem converter_output_wellformed (tokens : List Token) :
    (∀ t ∈ toRPN tokens, isNumOrOp t = true)
    ∧ (∀ op st, (∀ t ∈ st, isOpOrLP t = true) →
        ∀ t ∈ Token.Operator op :: (popOps op st).2, isOpOrLP t = true)
    ∧ (∀ st, (∀ t ∈ st, isOpOrLP t = true) →
        ∀ t ∈ dropParen (popUntilParen st).2, isOpOrLP t = true)
    ∧ (∀ st, (∀ t ∈ st, isOpOrLP t = true) →
        ∀ t ∈ Token.LeftParen :: st, isOpOrLP t = true)
    ∧ ∀ e, evalRPN (toRPN tokens) ≠ Except.error (EvalErr.UnexpectedToken e) := by
  have hout : ∀ t ∈ toRPN tokens, isNumOrOp t = true :=
    toRPNAux_mem tokens [] [] (by simp) (by simp)
  refine ⟨hout, ?_, ?_, ?_, ?_⟩
  · intro op st hs t ht
    rcases List.mem_cons.mp ht with rfl | ht
    · simp [isOpOrLP]
    · exact hs t (popOps_snd_mem op st t ht)
  · intro st hs t ht
    exact (popUntilParen_spec st hs).2 t (dropParen_subset _ t ht)
  · intro st hs t ht
    rcases List.mem_cons.mp ht with rfl | ht
    · simp [isOpOrLP]
    · exact hs t ht
  · exact fun e => evalAux_ne_unexpected (toRPN tokens) [] hout e

/-- Witness for C6 at concrete inputs: the pipeline on "(2 + 2) * 3" does
not fail with UnexpectedToken at a leaked LeftParen, and the step
instances hold on the empty stack. -/
theorem converter_output_wellformed_witness :
    evalRPN (toRPN (tokenize ("(2 + 2) * 3"))) ≠
        Except.error (EvalErr.UnexpectedToken Token.LeftParen)
      ∧ isOpOrLP Token.LeftParen = true := by
  refine ⟨(converter_output_wellformed (tokenize ("(2 + 2) * 3"))).2.2.2.2 Token.LeftParen, ?_⟩
  exact (converter_output_wellformed (tokenize ("(2 + 2) * 3"))).2.2.2.1 []
    (by simp) Token.LeftParen (by simp)

/-- C7: with at least two stacked values, applying the division operator
fails with DivisionByZero exactly when the popped right operand b is zero,
and otherwise pushes the quotient a / b and continues; the full pipeline on
"5 / 0" fails with DivisionByZero. -/
theorem division_by_zero_rule (ts : List Token) (a b : ℚ) (rest : List ℚ) :
    applyOp '/' a b =
        (if b = 0 then Except.error EvalErr.DivisionByZero else Except.ok (a / b))
    ∧ evalAux (Token.Operator '/' :: ts) (b :: a :: rest) =
        (if b = 0 then Except.error EvalErr.DivisionByZero
          else evalAux ts ((a / b) :: rest))
    ∧ evalRPN (toRPN (tokenize ("5 / 0"))) = Except.error EvalErr.DivisionByZero := by
  refine ⟨?_, ?_, ?_⟩
  · by_cases hb : b = 0 <;> simp [applyOp, hb]
  · by_cases hb : b = 0 <;> simp [evalAux, applyOp, hb]
  · simp [tokenize, tokenizeAux, emitNum, parseF64, digitsVal, opChar, numChar, toRPN,
      toRPNAux, popOps, popUntilParen, dropParen, drainStack, getPrecedence,
      isLeftAssociative, evalRPN, evalAux, applyOp, powf]

/-- C8: an Operator token with fewer than two stacked values fails with
InsufficientOperands; with two or more, the first value popped is the right
operand b and the second is the left operand a, so subtraction yields a - b
and the caret yields a raised to b. -/
theorem operand_pop_order (op : Char) (ts : List Token) (a b v : ℚ) (rest : List ℚ) :
    evalAux (Token.Operator op :: ts) [] = Except.error (EvalErr.InsufficientOperands op)
    ∧ evalAux (Token.Operator op :: ts) [v] = Except.error (EvalErr.InsufficientOperands op)
    ∧ evalAux (Token.Operator op :: ts) (b :: a :: rest) =
        (match applyOp op a b with
          | Except.ok r => evalAux ts (r :: rest)
          | Except.error e => Except.error e)
    ∧ applyOp '-' a b = Except.ok (a - b)
    ∧ applyOp '^' a b = Except.ok (powf a b) := by
  refine ⟨rfl, rfl, rfl, by simp [applyOp], by simp [applyOp]⟩

/-- C9: after the token loop the evaluator returns Ok exactly when the value
stack holds exactly one value, and InvalidExpression otherwise; in
particular it fails with InvalidExpression on the empty token sequence and
on the pipeline output for "2 2". -/
theorem final_stack_rule (st : List ℚ) :
    evalAux [] st =
        (match st with
          | [v] => Except.ok v
          | _ => Except.error EvalErr.InvalidExpression)
    ∧ evalRPN [] = Except.error EvalErr.InvalidExpression
    ∧ evalRPN (toRPN (tokenize ("2 2"))) = Except.error EvalErr.InvalidExpression := by
  refine ⟨?_, rfl, ?_⟩
  · match st with
    | [] => rfl
    | [v] => rfl
    | v :: w :: r => rfl
  · simp [tokenize, tokenizeAux, emitNum, parseF64, digitsVal, opChar, numChar, toRPN,
      toRPNAux, popOps, popUntilParen, dropParen, drainStack, getPrecedence,
      isLeftAssociative, evalRPN, evalAux, applyOp, powf]

/-- C10: each pipeline stage is deterministic — equal inputs give equal
outputs for tokenization, conversion, and evaluation. -/
theorem stages_deterministic (s t : String) (xs ys zs ws : List Token)
    (hs : s = t) (hx : xs = ys) (hz : zs = ws) :
    tokenize s = tokenize t ∧ toRPN xs = toRPN ys ∧ evalRPN zs = evalRPN ws :=
  ⟨hs ▸ rfl, hx ▸ rfl, hz ▸ rfl⟩

/-- Witness for C10 at concrete inputs. -/
theorem stages_deterministic_witness :
    tokenize ("2 + 2") = tokenize ("2 + 2")
      ∧ toRPN [Token.Number 2] = toRPN [Token.Number 2]
      ∧ evalRPN [Token.Number 2] = evalRPN [Token.Number 2] :=
  stages_deterministic ("2 + 2") ("2 + 2") [Token.Number 2] [Token.Number 2]
    [Token.Number 2] [Token.Number 2] rfl rfl rfl
